import Mathlib

/-!
Verification of the parallel adaptive-stopping Monte Carlo accumulation engine
(`omp_offload_mc.c`).

The C program computes with IEEE doubles.  All values that actually arise are
exactly representable small rationals, so we model a double as a rational
number extended with the IEEE special values `+inf`, `-inf` and `NaN`
(type `FV`).  Division by zero and comparisons involving `NaN` follow the
IEEE rules the C program relies on (`0.0/0.0 = NaN`, `x/0.0 = ±inf` for
`x ≠ 0`, every `<` comparison with a `NaN` operand is false).

The shared state of the program (`all_sum_X`, `all_sum_X2`, `all_ntrials`)
is the structure `Agg`; the body of the `omp critical` section at lines
174-185 of the source is `criticalSection`; a worker's `do ... while
(!done_flag)` loop is `workerLoop`, parameterised by the deviate stream and
by an environment action modelling merges interleaved by other workers.
-/

/-- A double value: a finite rational or one of the IEEE special values. -/
inductive FV where
  | fin : ℚ → FV
  | pinf : FV
  | ninf : FV
  | nan : FV
deriving DecidableEq, Repr

namespace FV

/-- IEEE division (the rational zero plays the role of `+0.0`). -/
def div (x y : FV) : FV :=
  match x, y with
  | .nan, _ => .nan
  | _, .nan => .nan
  | .fin a, .fin b =>
      if b = 0 then (if a = 0 then .nan else if 0 < a then .pinf else .ninf)
      else .fin (a / b)
  | .fin _, .pinf => .fin 0
  | .fin _, .ninf => .fin 0
  | .pinf, .fin b => if 0 ≤ b then .pinf else .ninf
  | .ninf, .fin b => if 0 ≤ b then .ninf else .pinf
  | .pinf, .pinf => .nan
  | .pinf, .ninf => .nan
  | .ninf, .pinf => .nan
  | .ninf, .ninf => .nan

/-- IEEE multiplication. -/
def mul (x y : FV) : FV :=
  match x, y with
  | .nan, _ => .nan
  | _, .nan => .nan
  | .fin a, .fin b => .fin (a * b)
  | .fin a, .pinf => if a = 0 then .nan else if 0 < a then .pinf else .ninf
  | .fin a, .ninf => if a = 0 then .nan else if 0 < a then .ninf else .pinf
  | .pinf, .fin b => if b = 0 then .nan else if 0 < b then .pinf else .ninf
  | .ninf, .fin b => if b = 0 then .nan else if 0 < b then .ninf else .pinf
  | .pinf, .pinf => .pinf
  | .pinf, .ninf => .ninf
  | .ninf, .pinf => .ninf
  | .ninf, .ninf => .pinf

/-- IEEE subtraction. -/
def sub (x y : FV) : FV :=
  match x, y with
  | .nan, _ => .nan
  | _, .nan => .nan
  | .fin a, .fin b => .fin (a - b)
  | .fin _, .pinf => .ninf
  | .fin _, .ninf => .pinf
  | .pinf, .fin _ => .pinf
  | .ninf, .fin _ => .ninf
  | .pinf, .pinf => .nan
  | .pinf, .ninf => .pinf
  | .ninf, .pinf => .ninf
  | .ninf, .ninf => .nan

/-- IEEE strict less-than: any comparison with `NaN` is false. -/
def lt (x y : FV) : Bool :=
  match x, y with
  | .nan, _ => false
  | _, .nan => false
  | .fin a, .fin b => decide (a < b)
  | .fin _, .pinf => true
  | .fin _, .ninf => false
  | .pinf, _ => false
  | .ninf, .pinf => true
  | .ninf, .ninf => false
  | .ninf, .fin _ => true

/-- The rational carried by a finite value (junk `0` on the special values). -/
def toQ : FV → ℚ
  | .fin q => q
  | _ => 0

end FV

/-- The convergence oracle, lines 52-59 of the source:
`EX = sum_X/ntrials`, `EX2 = sum_X2/ntrials`, `varX = EX2 - EX*EX`,
result `varX/(EX*EX)/ntrials < rtol*rtol || ntrials > maxtrials`.
All arithmetic is double arithmetic (`FV`); the `maxtrials` comparison
promotes the `long` to double, here a cast `ℤ → ℚ`. -/
def is_converged (sum_X sum_X2 ntrials rtol : ℚ) (maxtrials : ℤ) : Bool :=
  let EX : FV := FV.div (.fin sum_X) (.fin ntrials)
  let EX2 : FV := FV.div (.fin sum_X2) (.fin ntrials)
  let varX : FV := FV.sub EX2 (FV.mul EX EX)
  FV.lt (FV.div (FV.div varX (FV.mul EX EX)) (.fin ntrials))
      (FV.mul (.fin rtol) (.fin rtol))
    || decide ((maxtrials : ℚ) < ntrials)

/-- The convergence criterion as the spec words it (§4.4): computes
`mean = sum_X/ntrials`, `mean_of_squares = sum_X2/ntrials`,
`variance = mean_of_squares - mean*mean`, and is true iff
`variance/(mean*mean)/ntrials < relative_tolerance^2` or
`ntrials > max_trials`, read in exact rational arithmetic. -/
def is_converged_spec (sum_X sum_X2 ntrials rtol : ℚ) (maxtrials : ℤ) : Bool :=
  let mean : ℚ := sum_X / ntrials
  let mean_of_squares : ℚ := sum_X2 / ntrials
  let variance : ℚ := mean_of_squares - mean * mean
  decide (variance / (mean * mean) / ntrials < rtol ^ 2 ∨ (maxtrials : ℚ) < ntrials)

/-- The run parameters: `rtol`, `maxtrials`, `nbatch` (lines 47-49). -/
structure Params where
  rtol : ℚ
  maxtrials : ℤ
  nbatch : ℤ
deriving DecidableEq, Repr

/-- The shared Monte Carlo aggregate `all_sum_X`, `all_sum_X2`,
`all_ntrials` (lines 133-135), initialised to zeros. -/
structure Agg where
  sum_X : ℚ
  sum_X2 : ℚ
  ntrials : ℤ
deriving DecidableEq, Repr

/-- One trial draws the next deviate from the worker's stream (lines 62-67). -/
def run_trial (stream : ℕ → ℚ) (i : ℕ) : ℚ := stream i

/-- One unsynchronised batch (lines 165-171): starting at stream position
`start`, accumulate `n` draws into local `sum_X` and `sum_X2`. -/
def batchLocal (stream : ℕ → ℚ) (start : ℕ) (n : ℕ) : ℚ × ℚ :=
  (List.range n).foldl
    (fun acc t =>
      (acc.1 + run_trial stream (start + t),
       acc.2 + run_trial stream (start + t) * run_trial stream (start + t)))
    (0, 0)

/-- The `omp critical` block at lines 174-185: with the worker's incoming
`done_flag` and local batch sums, run the pre-merge convergence check, add
the local sums and `nbatch` into the aggregate, run the post-merge check,
and return the new aggregate with the worker's new `done_flag`. -/
def criticalSection (p : Params) (a : Agg) (done : Bool) (sX sX2 : ℚ) :
    Agg × Bool :=
  let d1 := done ||
    is_converged a.sum_X a.sum_X2 (a.ntrials : ℚ) p.rtol p.maxtrials
  let a2 : Agg := ⟨a.sum_X + sX, a.sum_X2 + sX2, a.ntrials + p.nbatch⟩
  let d2 := d1 ||
    is_converged a2.sum_X a2.sum_X2 (a2.ntrials : ℚ) p.rtol p.maxtrials
  (a2, d2)

/-- A worker's `do ... while (!done_flag)` loop (lines 163-187), with fuel.
`env i a` is the aggregate as this worker finds it at its `i`-th merge,
accounting for merges other workers performed in between (`env i a = a`
models a single-worker run).  Returns the aggregate just after this
worker's final merge and the number of batches it ran, or `none` if the
fuel ran out. -/
def workerLoop (p : Params) (stream : ℕ → ℚ) (env : ℕ → Agg → Agg) :
    ℕ → ℕ → Agg → ℕ → Option (Agg × ℕ)
  | 0, _, _, _ => none
  | fuel + 1, i, a, pos =>
      let a0 := env i a
      let b := batchLocal stream pos p.nbatch.toNat
      let r := criticalSection p a0 false b.1 b.2
      if r.2 then some (r.1, i + 1)
      else workerLoop p stream env fuel (i + 1) r.1 (pos + p.nbatch.toNat)

/-- The aggregate after a serialized trace of merge events.  Each event is
(worker id, local `sum_X`, local `sum_X2`); the aggregate part of each merge
is exactly what the critical section does to it. -/
def traceAgg (p : Params) (tr : List (ℕ × ℚ × ℚ)) : Agg :=
  tr.foldl (fun a e => (criticalSection p a false e.2.1 e.2.2).1) ⟨0, 0, 0⟩

/-- Validation of `-t` (lines 78-84): the process exits iff `rtol < 0`. -/
def rtol_rejected (r : ℚ) : Bool := decide (r < 0)

/-- Validation of `-n` (lines 85-91): the process exits iff `maxtrials < 1`. -/
def maxtrials_rejected (m : ℤ) : Bool := decide (m < 1)

/-- Validation of `-b` (lines 92-98): the process exits iff `nbatch < 1`. -/
def nbatch_rejected (b : ℤ) : Bool := decide (b < 1)

/-- The whole program on one worker: `process_args` validation first
(`none` models `exit(-1)` before the parallel region), then the worker
loop from the zero aggregate. -/
def runProgram (p : Params) (stream : ℕ → ℚ) (fuel : ℕ) :
    Option (Agg × ℕ) :=
  if rtol_rejected p.rtol || maxtrials_rejected p.maxtrials ||
      nbatch_rejected p.nbatch then
    none
  else workerLoop p stream (fun _ a => a) fuel 0 ⟨0, 0, 0⟩ 0

/-- Final mean `EX = all_sum_X / all_ntrials` (line 193), in double
arithmetic. -/
def finalMean (a : Agg) : FV :=
  FV.div (.fin a.sum_X) (.fin (a.ntrials : ℚ))

/-- The argument of the final `sqrt`, `(EX2 - EX*EX) / all_ntrials`
(line 195): the final standard error is its square root. -/
def finalVarOverN (a : Agg) : FV :=
  FV.div
    (FV.sub (FV.div (.fin a.sum_X2) (.fin (a.ntrials : ℚ)))
      (FV.mul (finalMean a) (finalMean a)))
    (.fin (a.ntrials : ℚ))

/-! ## Helper lemmas -/

/-- A batch over a constant stream accumulates `n*c` and `n*c²`. -/
lemma batchLocal_const (c : ℚ) (start n : ℕ) :
    batchLocal (fun _ => c) start n = ((n : ℚ) * c, (n : ℚ) * (c * c)) := by
  induction n with
  | zero => simp [batchLocal]
  | succ k ih =>
      unfold batchLocal at ih ⊢
      rw [List.range_succ, List.foldl_append, ih]
      simp [run_trial]
      constructor <;> ring

/-- The trial-cap disjunct of the oracle wins no matter what the sums are. -/
lemma is_converged_cap_wins (sX sX2 n rtol : ℚ) (mt : ℤ)
    (h : (mt : ℚ) < n) : is_converged sX sX2 n rtol mt = true := by
  simp [is_converged, h]

/-- The merged aggregate produced by the critical section. -/
lemma criticalSection_fst (p : Params) (a : Agg) (d : Bool) (sX sX2 : ℚ) :
    (criticalSection p a d sX sX2).1 =
      ⟨a.sum_X + sX, a.sum_X2 + sX2, a.ntrials + p.nbatch⟩ := rfl

/-- If the merge pushes the trial count past the cap, the critical section
always comes out with the done flag set. -/
lemma criticalSection_done_of_cap (p : Params) (a : Agg) (d : Bool)
    (sX sX2 : ℚ) (h : p.maxtrials < a.ntrials + p.nbatch) :
    (criticalSection p a d sX sX2).2 = true := by
  have hq : (p.maxtrials : ℚ) < (a.ntrials : ℚ) + (p.nbatch : ℚ) := by
    exact_mod_cast h
  simp [criticalSection]
  exact Or.inr (is_converged_cap_wins _ _ _ _ _ hq)

/-- Fuel induction: a worker whose remaining fuel suffices to push the trial
count past the cap finishes (its loop returns) within that fuel, whatever
the interleaved merges of other workers do to the aggregate, as long as they
never decrease the trial count. -/
lemma workerLoop_done_by_cap (p : Params) (stream : ℕ → ℚ)
    (env : ℕ → Agg → Agg)
    (henv : ∀ i a, (a : Agg).ntrials ≤ (env i a).ntrials) :
    ∀ (fuel i : ℕ) (a : Agg) (pos : ℕ),
      p.maxtrials < a.ntrials + ((fuel : ℤ) + 1) * p.nbatch →
      (workerLoop p stream env (fuel + 1) i a pos).isSome = true := by
  intro fuel
  induction fuel with
  | zero =>
      intro i a pos h
      have hcap : p.maxtrials < (env i a).ntrials + p.nbatch := by
        push_cast at h
        linarith [henv i a]
      rw [workerLoop]
      simp [criticalSection_done_of_cap _ _ _ _ _ hcap]
  | succ k ih =>
      intro i a pos h
      rw [workerLoop]
      cases hr : (criticalSection p (env i a) false
          (batchLocal stream pos p.nbatch.toNat).1
          (batchLocal stream pos p.nbatch.toNat).2).2 with
      | true => simp [hr]
      | false =>
          simp only [hr, Bool.false_eq_true, if_false]
          apply ih
          have hfst : (criticalSection p (env i a) false
              (batchLocal stream pos p.nbatch.toNat).1
              (batchLocal stream pos p.nbatch.toNat).2).1.ntrials
              = (env i a).ntrials + p.nbatch := rfl
          rw [hfst]
          push_cast at h
          linarith [henv i a]

/-- Closed form of a serialized sequence of critical-section merges starting
from an arbitrary aggregate. -/
lemma traceAgg_foldl (p : Params) (tr : List (ℕ × ℚ × ℚ)) (a : Agg) :
    tr.foldl (fun a e => (criticalSection p a false e.2.1 e.2.2).1) a =
      ⟨a.sum_X + (tr.map fun e => e.2.1).sum,
       a.sum_X2 + (tr.map fun e => e.2.2).sum,
       a.ntrials + (tr.length : ℤ) * p.nbatch⟩ := by
  induction tr generalizing a with
  | nil => cases a; simp
  | cons e tr ih =>
      rw [List.foldl_cons, ih]
      simp only [criticalSection_fst, List.map_cons, List.sum_cons,
        List.length_cons, Agg.mk.injEq]
      refine ⟨by ring, by ring, by push_cast; ring⟩

/-! ## Claim theorems -/

/-- C4: for every `ntrials` strictly greater than `max_trials`,
`is_converged` returns true regardless of `sum_X` and `sum_X2`, hence
regardless of the variance term, including when the relative-error disjunct
is degenerate (zero or undefined mean): the trial-cap disjunct always
wins. -/
theorem cap_exceeded_forces_convergence (sX sX2 n rtol : ℚ) (mt : ℤ)
    (h : (mt : ℚ) < n) : is_converged sX sX2 n rtol mt = true :=
  is_converged_cap_wins sX sX2 n rtol mt h

/-- Witness for C4 at the degenerate input `sum_X = 0` (zero mean),
`ntrials = 11 > max_trials = 10`. -/
theorem cap_exceeded_forces_convergence_witness :
    ((10 : ℤ) : ℚ) < 11 ∧ is_converged 0 0 11 (1/100) 10 = true :=
  ⟨by norm_num,
   cap_exceeded_forces_convergence 0 0 11 (1/100) 10 (by norm_num)⟩

/-- C6: every critical-section merge evaluates the convergence oracle
exactly twice, once on the aggregate before the worker's local totals are
added (pre-merge) and once after (post-merge), and the outgoing done flag
is set iff it was already set or either evaluation returned true. -/
theorem critical_section_two_oracle_checks (p : Params) (a : Agg)
    (d : Bool) (sX sX2 : ℚ) :
    (criticalSection p a d sX sX2).2 =
      (d || is_converged a.sum_X a.sum_X2 (a.ntrials : ℚ) p.rtol p.maxtrials
         || is_converged (a.sum_X + sX) (a.sum_X2 + sX2)
             ((a.ntrials + p.nbatch : ℤ) : ℚ) p.rtol p.maxtrials) := rfl

/-- C8: at `sum_X = 0`, `ntrials = 5 ≥ 1` the mean `EX = 0/5` is exactly
zero, the divisor `EX*EX` of the relative-error test is zero, and the
division is performed unguarded: with `sum_X2 = 1` it yields the IEEE
exceptional value `+inf`, and the oracle then answers false. -/
theorem zero_mean_division_by_zero :
    FV.mul (FV.div (.fin 0) (.fin 5)) (FV.div (.fin 0) (.fin 5)) = .fin 0 ∧
    FV.div (FV.sub (FV.div (.fin 1) (.fin 5))
        (FV.mul (FV.div (.fin 0) (.fin 5)) (FV.div (.fin 0) (.fin 5))))
      (FV.mul (FV.div (.fin 0) (.fin 5)) (FV.div (.fin 0) (.fin 5)))
      = .pinf ∧
    is_converged 0 1 5 1 1000000 = false := by
  norm_num [is_converged, FV.div, FV.mul, FV.sub, FV.lt]

/-- C9: a run configured with `batch_size = 0` is rejected by argument
processing before any worker executes a single trial: the program exits
non-zero (modelled `none`) and the worker loop never runs. -/
theorem zero_batch_size_rejected (p : Params) (stream : ℕ → ℚ) (fuel : ℕ)
    (h : p.nbatch = 0) : runProgram p stream fuel = none := by
  simp [runProgram, nbatch_rejected, h]

/-- Witness for C9 at `rtol = 1/100`, `maxtrials = 10`, `nbatch = 0`. -/
theorem zero_batch_size_rejected_witness :
    (⟨1/100, 10, 0⟩ : Params).nbatch = 0 ∧
      runProgram ⟨1/100, 10, 0⟩ (fun _ => 1/2) 11 = none :=
  ⟨rfl, zero_batch_size_rejected _ _ _ rfl⟩

/-- C2 (refuting the claim on the code): `process_args` only rejects
`rtol < 0`, so `relative_tolerance = 0` is accepted even though the spec
and the code's own diagnostic ("rtol must be positive") require a
non-zero-status exit; a full computation then proceeds: with `rtol = 0`,
`maxtrials = 10`, `nbatch = 5` and the constant-`1/2` stream the run
executes 3 batches (15 trials) up to the trial cap instead of exiting. -/
theorem rtol_zero_accepted_run_proceeds :
    rtol_rejected 0 = false ∧
      runProgram ⟨0, 10, 5⟩ (fun _ => 1/2) 11
        = some (⟨15/2, 15/4, 15⟩, 3) := by
  refine ⟨rfl, ?_⟩
  norm_num [runProgram, rtol_rejected, maxtrials_rejected, nbatch_rejected,
    workerLoop, batchLocal_const, criticalSection,
    show ((5:ℤ).toNat : ℕ) = 5 from rfl,
    is_converged, FV.div, FV.mul, FV.sub, FV.lt]

/-- C5: after any serialized trace of critical-section merges the shared
trial count is the non-negative multiple `tr.length * batch_size` of the
batch size, equals the sum over worker ids of (batches merged by that
worker) times the batch size, grows by exactly `batch_size` at each further
merge, and the aggregate sums are exactly the totals of the committed batch
contributions (in-flight local data is absent). -/
theorem aggregate_invariant_committed_batches (p : Params)
    (tr : List (ℕ × ℚ × ℚ)) (e : ℕ × ℚ × ℚ) (hb : 1 ≤ p.nbatch) :
    (traceAgg p tr).ntrials = (tr.length : ℤ) * p.nbatch ∧
    0 ≤ (traceAgg p tr).ntrials ∧
    ((tr.map Prod.fst).toFinset.sum
        fun w => ((tr.map Prod.fst).count w : ℤ) * p.nbatch)
      = (traceAgg p tr).ntrials ∧
    (traceAgg p (tr ++ [e])).ntrials = (traceAgg p tr).ntrials + p.nbatch ∧
    (traceAgg p tr).sum_X = (tr.map fun x => x.2.1).sum ∧
    (traceAgg p tr).sum_X2 = (tr.map fun x => x.2.2).sum := by
  have h0 : traceAgg p tr =
      ⟨(tr.map fun x => x.2.1).sum, (tr.map fun x => x.2.2).sum,
        (tr.length : ℤ) * p.nbatch⟩ := by
    unfold traceAgg
    rw [traceAgg_foldl]
    simp
  have happ : (traceAgg p (tr ++ [e])).ntrials
      = (traceAgg p tr).ntrials + p.nbatch := by
    unfold traceAgg
    rw [List.foldl_append]
    rfl
  refine ⟨by rw [h0], ?_, ?_, happ, by rw [h0], by rw [h0]⟩
  · rw [h0]
    exact mul_nonneg (Int.natCast_nonneg _) (by linarith)
  · rw [h0]
    rw [← Finset.sum_mul]
    congr 1
    rw [← Nat.cast_sum, List.sum_toFinset_count_eq_length, List.length_map]

/-- C1: for every `ntrials > 0` and nonzero mean (`sum_X ≠ 0`; the zero-mean
point is the division-by-zero hazard the spec itself carves out, claim C8),
`is_converged` computes `mean = sum_X/ntrials`,
`mean_of_squares = sum_X2/ntrials`, `variance = mean_of_squares - mean*mean`
and returns true iff `variance/(mean*mean)/ntrials < relative_tolerance^2`
or `ntrials > max_trials`: it coincides with the spec's formula read in
exact rational arithmetic. -/
theorem is_converged_matches_spec_formula (sX sX2 n rtol : ℚ) (mt : ℤ)
    (hn : 0 < n) (hx : sX ≠ 0) :
    is_converged sX sX2 n rtol mt = is_converged_spec sX sX2 n rtol mt ∧
    (is_converged sX sX2 n rtol mt = true ↔
      ((sX2 / n - sX / n * (sX / n)) / (sX / n * (sX / n)) / n < rtol ^ 2
        ∨ (mt : ℚ) < n)) := by
  have hn0 : n ≠ 0 := ne_of_gt hn
  have hEX : sX / n ≠ 0 := div_ne_zero hx hn0
  have hm : sX / n * (sX / n) ≠ 0 := mul_ne_zero hEX hEX
  have hred : is_converged sX sX2 n rtol mt
      = (decide ((sX2 / n - sX / n * (sX / n)) / (sX / n * (sX / n)) / n
          < rtol * rtol) || decide ((mt : ℚ) < n)) := by
    simp only [is_converged, FV.div, FV.mul, FV.sub, FV.lt]
    simp [hn0, hm]
  have hspec : is_converged_spec sX sX2 n rtol mt
      = decide ((sX2 / n - sX / n * (sX / n)) / (sX / n * (sX / n)) / n
          < rtol ^ 2 ∨ (mt : ℚ) < n) := rfl
  constructor
  · rw [hred, hspec]
    simp [sq]
  · rw [hred]
    simp [sq]

/-- Witness for C1 at `sum_X = 5/2`, `sum_X2 = 5/4`, `ntrials = 5`,
`rtol = 1`, `maxtrials = 10`. -/
theorem is_converged_matches_spec_formula_witness :
    (0:ℚ) < 5 ∧ (5/2 : ℚ) ≠ 0 ∧
    (is_converged (5/2) (5/4) 5 1 10 = is_converged_spec (5/2) (5/4) 5 1 10 ∧
      (is_converged (5/2) (5/4) 5 1 10 = true ↔
        (((5:ℚ)/4 / 5 - (5:ℚ)/2 / 5 * ((5:ℚ)/2 / 5))
            / ((5:ℚ)/2 / 5 * ((5:ℚ)/2 / 5)) / 5 < (1:ℚ) ^ 2
          ∨ ((10 : ℤ) : ℚ) < 5))) :=
  ⟨by norm_num, by norm_num,
   is_converged_matches_spec_formula (5/2) (5/4) 5 1 10
     (by norm_num) (by norm_num)⟩

/-- C3 counterexample: the done flag is **not** a single shared boolean
whose setting stops every worker at its current batch boundary.  With
`rtol = 1/5`, `maxtrials = 1000`, `nbatch = 5`: a first worker merging the
batch (sum 5/2, sum of squares 5/4 — five draws of 1/2) gets its flag set
(variance 0 converges); after a second worker merges a high-variance batch
(sums 2, 2 — draws 0,1,0,1,0), a third worker's batch-boundary check comes
out false on both oracle evaluations, so that worker runs a further batch
even though a worker's check had already set "the" flag. -/
theorem shared_flag_claim_counterexample :
    (criticalSection ⟨1/5, 1000, 5⟩ ⟨0, 0, 0⟩ false (5/2) (5/4)).2 = true ∧
    (criticalSection ⟨1/5, 1000, 5⟩
      (criticalSection ⟨1/5, 1000, 5⟩
        (criticalSection ⟨1/5, 1000, 5⟩ ⟨0, 0, 0⟩ false (5/2) (5/4)).1
        false 2 2).1 false 2 2).2 = false := by
  norm_num [criticalSection, is_converged, FV.div, FV.mul, FV.sub, FV.lt]

/-- C3 amended: each worker's `done_flag` is private and monotonic — the
critical section never clears an already-true flag — and once a worker's
own batch-boundary check sets its flag, that worker stops at the end of
that very batch (its loop returns immediately after this merge). -/
theorem done_flag_private_monotonic (p : Params) (stream : ℕ → ℚ)
    (env : ℕ → Agg → Agg) (fuel i pos : ℕ) (a : Agg) (sX sX2 : ℚ)
    (h : (criticalSection p (env i a) false
        (batchLocal stream pos p.nbatch.toNat).1
        (batchLocal stream pos p.nbatch.toNat).2).2 = true) :
    (criticalSection p a true sX sX2).2 = true ∧
    workerLoop p stream env (fuel + 1) i a pos
      = some ((criticalSection p (env i a) false
          (batchLocal stream pos p.nbatch.toNat).1
          (batchLocal stream pos p.nbatch.toNat).2).1, i + 1) := by
  constructor
  · simp [criticalSection]
  · rw [workerLoop]
    simp [h]

/-- Witness for the amended C3: one worker, constant-`1/2` stream,
`rtol = 1`, `maxtrials = 10`, `nbatch = 5`; its first check sets the flag
and its loop returns after that batch. -/
theorem done_flag_private_monotonic_witness :
    (criticalSection ⟨1, 10, 5⟩ ⟨0, 0, 0⟩ false
        (batchLocal (fun _ => 1/2) 0 ((5:ℤ)).toNat).1
        (batchLocal (fun _ => 1/2) 0 ((5:ℤ)).toNat).2).2 = true ∧
    ((criticalSection ⟨1, 10, 5⟩ ⟨0, 0, 0⟩ true 0 0).2 = true ∧
      workerLoop ⟨1, 10, 5⟩ (fun _ => 1/2) (fun _ a => a) 1 0 ⟨0, 0, 0⟩ 0
        = some ((criticalSection ⟨1, 10, 5⟩ ⟨0, 0, 0⟩ false
            (batchLocal (fun _ => 1/2) 0 ((5:ℤ)).toNat).1
            (batchLocal (fun _ => 1/2) 0 ((5:ℤ)).toNat).2).1, 1)) := by
  have h : (criticalSection ⟨1, 10, 5⟩ ⟨0, 0, 0⟩ false
      (batchLocal (fun _ => 1/2) 0 ((5:ℤ)).toNat).1
      (batchLocal (fun _ => 1/2) 0 ((5:ℤ)).toNat).2).2 = true := by
    norm_num [criticalSection, batchLocal_const,
      show ((5:ℤ).toNat : ℕ) = 5 from rfl,
      is_converged, FV.div, FV.mul, FV.sub, FV.lt]
  exact ⟨h, done_flag_private_monotonic ⟨1, 10, 5⟩ (fun _ => 1/2)
    (fun _ a => a) 0 0 0 ⟨0, 0, 0⟩ 0 0 h⟩

/-- C7: with `rtol = 1`, `maxtrials = 10`, `nbatch = 5`, one worker and the
constant stream `1/2, 1/2, ...`, the run terminates after exactly one batch
with aggregate `sum_X = 5/2`, `sum_X2 = 5/4`, `ntrials = 5` (the batch gave
mean `1/2` and variance `0`, and `0 < 1` converges); the final reported
mean is `1/2` and the final standard error is `sqrt 0 = 0`. -/
theorem constant_half_stream_scenario :
    workerLoop ⟨1, 10, 5⟩ (fun _ => 1/2) (fun _ a => a) 11 0 ⟨0, 0, 0⟩ 0
      = some (⟨5/2, 5/4, 5⟩, 1) ∧
    finalMean ⟨5/2, 5/4, 5⟩ = .fin (1/2) ∧
    finalVarOverN ⟨5/2, 5/4, 5⟩ = .fin 0 ∧
    Real.sqrt ((FV.toQ (finalVarOverN ⟨5/2, 5/4, 5⟩) : ℚ) : ℝ) = 0 := by
  have h3 : finalVarOverN ⟨5/2, 5/4, 5⟩ = .fin 0 := by
    norm_num [finalVarOverN, finalMean, FV.div, FV.mul, FV.sub]
  refine ⟨?_, ?_, h3, ?_⟩
  · norm_num [workerLoop, batchLocal_const, criticalSection,
      show ((5:ℤ).toNat : ℕ) = 5 from rfl,
      is_converged, FV.div, FV.mul, FV.sub, FV.lt]
  · norm_num [finalMean, FV.div]
  · rw [h3]
    simp [FV.toQ]

/-- C10: with `batch_size ≥ 1` and `max_trials ≥ 1`, a worker's batch loop
terminates after finitely many batches — `maxtrials + 1` iterations of fuel
always suffice — whatever the deviate stream yields and whatever merges
other workers interleave (any environment that never decreases the shared
trial count), because every merge grows `ntrials` by `batch_size` and once
`ntrials > max_trials` every convergence check returns true. -/
theorem worker_loop_terminates_under_cap (p : Params) (stream : ℕ → ℚ)
    (env : ℕ → Agg → Agg)
    (henv : ∀ i a, (a : Agg).ntrials ≤ (env i a).ntrials)
    (hb : 1 ≤ p.nbatch) (hm : 1 ≤ p.maxtrials) :
    (workerLoop p stream env (p.maxtrials.toNat + 1) 0 ⟨0, 0, 0⟩ 0).isSome
      = true := by
  apply workerLoop_done_by_cap p stream env henv
  have h1 : ((p.maxtrials.toNat : ℤ)) = p.maxtrials :=
    Int.toNat_of_nonneg (by linarith)
  rw [h1]
  show p.maxtrials < 0 + (p.maxtrials + 1) * p.nbatch
  have h2 : (p.maxtrials + 1) * 1 ≤ (p.maxtrials + 1) * p.nbatch :=
    mul_le_mul_of_nonneg_left hb (by linarith)
  linarith

/-- Witness for C10: single worker (identity environment), constant
stream, `rtol = 1/100`, `maxtrials = 10`, `nbatch = 5`. -/
theorem worker_loop_terminates_under_cap_witness :
    (1 ≤ (5:ℤ)) ∧ (1 ≤ (10:ℤ)) ∧
    (workerLoop ⟨1/100, 10, 5⟩ (fun _ => 1/2) (fun _ a => a)
      ((10:ℤ).toNat + 1) 0 ⟨0, 0, 0⟩ 0).isSome = true :=
  ⟨by norm_num, by norm_num,
   worker_loop_terminates_under_cap ⟨1/100, 10, 5⟩ (fun _ => 1/2)
     (fun _ a => a) (fun i a => le_refl _) (by norm_num) (by norm_num)⟩

/-- Witness for C5 on the concrete two-worker trace
`[(0, 5/2, 5/4), (1, 2, 2)]` with `nbatch = 5` and a further merge
`(0, 1, 1)`. -/
theorem aggregate_invariant_committed_batches_witness :
    (1:ℤ) ≤ 5 ∧
    (traceAgg ⟨1, 10, 5⟩ [(0, 5/2, 5/4), (1, 2, 2)]).ntrials = 10 ∧
    (traceAgg ⟨1, 10, 5⟩ ([(0, 5/2, 5/4), (1, 2, 2)] ++ [(0, 1, 1)])).ntrials
      = (traceAgg ⟨1, 10, 5⟩ [(0, 5/2, 5/4), (1, 2, 2)]).ntrials + 5 ∧
    (traceAgg ⟨1, 10, 5⟩ [(0, 5/2, 5/4), (1, 2, 2)]).sum_X = 9/2 := by
  have h := aggregate_invariant_committed_batches ⟨1, 10, 5⟩
    [(0, 5/2, 5/4), (1, 2, 2)] (0, 1, 1) (by norm_num)
  obtain ⟨h1, h2, h3, h4, h5, h6⟩ := h
  refine ⟨by norm_num, ?_, h4, ?_⟩
  · rw [h1]; norm_num
  · rw [h5]; norm_num
